import Mathlib

/-!
Shallow embedding of the stock-trading-simulator server
(`server/routes/portfolio.js`, `server/config.js`) and of the technical
indicator functions (`calculateSMA`, `calculateRSI`) from the chart route,
together with theorems settling the specification claims.

Monetary amounts, prices and quantities are JavaScript numbers in the
source; they are embedded as rationals (`ℚ`) so that the arithmetic the
routes perform is represented exactly.  The SQLite tables for a single
account are embedded as an explicit state record; the `BEGIN TRANSACTION /
ROLLBACK / COMMIT` discipline of the trade route is embedded by the trade
operation returning `Except`: an `error` outcome corresponds to a rollback
that leaves every table unchanged.
-/

namespace StockSim

/-- The initial cash balance constant from `server/config.js`
(`initialBalance: 10000`). -/
def initialBalance : ℚ := 10000

/-- One row of the `portfolio` table (for a fixed account): the held
quantity and the stored average cost of a symbol. -/
structure Position where
  quantity : ℚ
  average_cost : ℚ
deriving DecidableEq, Repr

/-- One row of the `transactions` table (for a fixed account), as written
by `recordTransaction`: symbol, absolute quantity, fill price and the
trade side string. -/
structure Txn where
  symbol : String
  quantity : ℚ
  price : ℚ
  ttype : String
deriving DecidableEq, Repr

/-- The database state relevant to one account: its `user_balance` row
(`none` when the row does not exist yet), its `portfolio` rows keyed by
symbol, and its `transactions` rows in insertion order. -/
structure TradeState where
  balance : Option ℚ
  positions : List (String × Position)
  transactions : List Txn
deriving DecidableEq, Repr

/-- The error outcomes of `POST /trade`: the `400` responses
`Invalid trade parameters`, `User balance not found`,
`Insufficient funds` and `Insufficient shares`. -/
inductive TradeError where
  | invalidInput
  | balanceNotFound
  | insufficientFunds
  | insufficientShares
deriving DecidableEq, Repr

/-- `SELECT quantity, average_cost FROM portfolio WHERE user_id = ? AND
symbol = ?`: the row of the (unique-keyed) portfolio table for a symbol. -/
def findPos : List (String × Position) → String → Option Position
  | [], _ => none
  | p :: ps, sym => if p.1 = sym then some p.2 else findPos ps sym

/-- The `ON CONFLICT ... DO UPDATE` arm of `updatePortfolio`:
`quantity = quantity + ?` with the signed quantity, and `average_cost`
rewritten to the weighted average `((quantity*average_cost) + (|q|*price))
/ (quantity + |q|)` when the signed quantity is positive (a buy), kept
unchanged otherwise (a sell passes the negated quantity). -/
def updateRow (pos : Position) (q price : ℚ) : Position :=
  { quantity := pos.quantity + q
    average_cost :=
      if 0 < q then
        (pos.quantity * pos.average_cost + |q| * price) / (pos.quantity + |q|)
      else pos.average_cost }

/-- The `INSERT ... ON CONFLICT(user_id, symbol) DO UPDATE` of
`updatePortfolio`: update the (unique) existing row for the symbol, or
insert a fresh row `(quantity, average_cost) = (q, price)`. -/
def upsertPos : List (String × Position) → String → ℚ → ℚ → List (String × Position)
  | [], sym, q, price => [(sym, { quantity := q, average_cost := price })]
  | p :: ps, sym, q, price =>
    if p.1 = sym then (p.1, updateRow p.2 q price) :: ps
    else p :: upsertPos ps sym q price

/-- The helper `updatePortfolio(userId, symbol, quantity, price, type,
cb)`: upsert the portfolio row with the signed quantity, then append a
`transactions` row recording `Math.abs(quantity)`. -/
def updatePortfolio (s : TradeState) (sym : String) (q price : ℚ) (ttype : String) :
    TradeState :=
  { s with
    positions := upsertPos s.positions sym q price
    transactions :=
      s.transactions ++ [{ symbol := sym, quantity := |q|, price := price, ttype := ttype }] }

/-- `POST /trade` from `server/routes/portfolio.js` for one account.
`price` stands for the fetched `quote.regularMarketPrice`.  The guard
embeds `if (!symbol || !quantity || !['buy','sell'].includes(type))`
(JavaScript falsiness of a number is `= 0`, of a string is `= ""`).  The
buy branch checks `row.balance < totalCost`, then debits the balance and
upserts with `+quantity`; the sell branch checks `!row || row.quantity <
quantity`, then credits the balance and upserts with `-quantity`. -/
def trade (s : TradeState) (symbol : String) (quantity : ℚ) (ttype : String)
    (price : ℚ) : Except TradeError TradeState :=
  if symbol = "" ∨ quantity = 0 ∨ ¬ (ttype = "buy" ∨ ttype = "sell") then
    .error .invalidInput
  else if ttype = "buy" then
    match s.balance with
    | none => .error .balanceNotFound
    | some b =>
      if b < price * quantity then .error .insufficientFunds
      else
        .ok (updatePortfolio { s with balance := some (b - price * quantity) }
              symbol quantity price "buy")
  else
    match findPos s.positions symbol with
    | none => .error .insufficientShares
    | some row =>
      if row.quantity < quantity then .error .insufficientShares
      else
        .ok (updatePortfolio
              { s with balance := s.balance.map (fun b => b + price * quantity) }
              symbol (-quantity) price "sell")

/-- The observable state after a `POST /trade` request: on any `error`
outcome the route issued `ROLLBACK`, so the database is left exactly as it
was; on `ok` it issued `COMMIT`. -/
def tradeRun (s : TradeState) (symbol : String) (quantity : ℚ) (ttype : String)
    (price : ℚ) : TradeState :=
  match trade s symbol quantity ttype price with
  | .ok s2 => s2
  | .error _ => s

/-- One trade request: the body fields of `POST /trade` together with the
market price the route fetches for the symbol. -/
structure TradeReq where
  symbol : String
  quantity : ℚ
  ttype : String
  price : ℚ
deriving DecidableEq, Repr

/-- Run a sequence of trade requests, stopping at the first rejection. -/
def applyTrades (s : TradeState) : List TradeReq → Except TradeError TradeState
  | [] => .ok s
  | r :: rs =>
    match trade s r.symbol r.quantity r.ttype r.price with
    | .error e => .error e
    | .ok s2 => applyTrades s2 rs

/-- `Σ (price × quantity)` over the buy requests of a sequence. -/
def buyTotal (reqs : List TradeReq) : ℚ :=
  ((reqs.filter (fun r => r.ttype = "buy")).map (fun r => r.price * r.quantity)).sum

/-- `Σ (price × quantity)` over the sell requests of a sequence. -/
def sellTotal (reqs : List TradeReq) : ℚ :=
  ((reqs.filter (fun r => r.ttype = "sell")).map (fun r => r.price * r.quantity)).sum

/-- Specification-side definition (from the spec sentence "the true
weighted average of all buy fills"): the quantity-weighted mean price of
the buy requests of a sequence for one symbol. -/
def buyFillsMean (reqs : List TradeReq) (sym : String) : ℚ :=
  let buys := reqs.filter (fun r => r.ttype = "buy" ∧ r.symbol = sym)
  ((buys.map (fun r => r.price * r.quantity)).sum) / ((buys.map (fun r => r.quantity)).sum)

/-- One element of the `holdings` array built by `GET /summary`. -/
structure Holding where
  symbol : String
  quantity : ℚ
  averageCost : ℚ
  currentPrice : ℚ
  totalValue : ℚ
  profit : ℚ
deriving DecidableEq, Repr

/-- The JSON body returned by `GET /summary`. -/
structure Summary where
  cash : ℚ
  totalValue : ℚ
  holdings : List Holding
  profit : ℚ
deriving DecidableEq, Repr

/-- `GET /summary` from `server/routes/portfolio.js`.  `priceOf` stands
for the `yahooFinance.quote` market price per symbol.  When the account
has no `user_balance` row, the route inserts one with
`config.initialBalance` and proceeds with that amount (the returned state
records the insertion).  The portfolio query selects only rows with
`quantity > 0`; each selected row becomes a holding with `totalValue =
currentPrice × quantity` and `profit = totalValue − average_cost ×
quantity`, and `totalValue`/`profit` of the body accumulate from the cash
balance and the initial balance constant. -/
def getSummary (s : TradeState) (priceOf : String → ℚ) : Summary × TradeState :=
  let bal := s.balance.getD initialBalance
  let port := s.positions.filter (fun p => 0 < p.2.quantity)
  let holdings := port.map (fun p =>
    let v := priceOf p.1 * p.2.quantity
    { symbol := p.1, quantity := p.2.quantity, averageCost := p.2.average_cost,
      currentPrice := priceOf p.1, totalValue := v,
      profit := v - p.2.average_cost * p.2.quantity : Holding })
  let totalValue := bal + (holdings.map (fun h => h.totalValue)).sum
  ({ cash := bal, totalValue := totalValue, holdings := holdings,
     profit := totalValue - initialBalance },
   { s with balance := some bal })

/-- `calculateSMA(data, period)` from the chart route: for each window
start `j` (the loop index `i = period − 1 + j` running up to
`data.length − 1`), the mean of `data.slice(i−period+1, i+1)`, with the
result prefixed by `period − 1` nulls. -/
def calculateSMA (data : List ℚ) (period : ℕ) : List (Option ℚ) :=
  let sma := (List.range (data.length - (period - 1))).map
    (fun j => ((data.drop j).take period).sum / (period : ℚ))
  List.replicate (period - 1) (none : Option ℚ) ++ sma.map some

/-- The `changes` array of `calculateRSI`: successive differences
`data[i] − data[i−1]`. -/
def rsiChanges : List ℚ → List ℚ
  | a :: b :: rest => (b - a) :: rsiChanges (b :: rest)
  | _ => []

/-- The seed averages of `calculateRSI`: the sums of the positive changes
and of the absolute negative changes among the first `period` changes,
each divided by `period`. -/
def rsiSeed (data : List ℚ) (period : ℕ) : ℚ × ℚ :=
  let changes := rsiChanges data
  (((changes.take period).filter (fun c => 0 < c)).sum / (period : ℚ),
   (((changes.take period).filter (fun c => c < 0)).map (fun c => |c|)).sum / (period : ℚ))

/-- The RSI value computed from an (average gain, average loss) pair:
`100` when the average loss is zero, otherwise `100 − 100/(1 + RS)` with
`RS = avgGain/avgLoss`. -/
def rsiOf (avg : ℚ × ℚ) : ℚ :=
  if avg.2 = 0 then 100 else 100 - 100 / (1 + avg.1 / avg.2)

/-- One Wilder smoothing step of `calculateRSI`:
`avgGain = (avgGain×(period−1) + gain)/period` and likewise for the loss,
where `gain = max(change, 0)` and `loss = max(−change, 0)`. -/
def wilderStep (period : ℕ) (avg : ℚ × ℚ) (change : ℚ) : ℚ × ℚ :=
  ((avg.1 * ((period : ℚ) - 1) + max change 0) / (period : ℚ),
   (avg.2 * ((period : ℚ) - 1) + max (-change) 0) / (period : ℚ))

/-- The main loop of `calculateRSI`: for each remaining change, smooth the
averages and push the resulting RSI value. -/
def rsiLoop (period : ℕ) (avg : ℚ × ℚ) : List ℚ → List ℚ
  | [] => []
  | c :: cs => rsiOf (wilderStep period avg c) :: rsiLoop period (wilderStep period avg c) cs

/-- `calculateRSI(data, period = 14)` from the chart route.  The first RSI
value is pushed unconditionally from the seed averages; the loop
`for (i = period; i < data.length − 1; i++)` then consumes
`changes[period ..]`.  The result is prefixed by
`Array(data.length − rsi.length)` nulls; when that count is negative
(empty input) the JavaScript `Array` constructor throws a `RangeError`,
embedded as `none`. -/
def calculateRSI (data : List ℚ) (period : ℕ) : Option (List (Option ℚ)) :=
  let rsi := rsiOf (rsiSeed data period) ::
    rsiLoop period (rsiSeed data period) ((rsiChanges data).drop period)
  if rsi.length ≤ data.length then
    some (List.replicate (data.length - rsi.length) (none : Option ℚ) ++ rsi.map some)
  else none

/-- The change `closes[i+1] − closes[i]` read off the closes list
(out-of-range reads default to `0`; the theorems only use in-range
indices). -/
def nthChange (data : List ℚ) (i : ℕ) : ℚ :=
  data.getD (i + 1) 0 - data.getD i 0

/-- Specification-side definition (from the spec's recurrence): the
(average gain, average loss) pair attached to close index `period + j`:
the seed at `j = 0`, and one Wilder smoothing step with change
`closes[period+j] − closes[period+j−1]` for each later index. -/
def rsiAvgs (data : List ℚ) (period : ℕ) : ℕ → ℚ × ℚ
  | 0 => rsiSeed data period
  | j + 1 => wilderStep period (rsiAvgs data period j) (nthChange data (period + j))

/-! ## Helper lemmas -/

/-- `updatePortfolio` touches only the portfolio and transaction tables,
never the balance row. -/
theorem updatePortfolio_balance (s : TradeState) (sym : String) (q price : ℚ)
    (ttype : String) : (updatePortfolio s sym q price ttype).balance = s.balance := rfl

/-- Characterization of a committed (`COMMIT`) trade: the request passed
validation, and either it was a buy that passed the funds check and
debited `price × quantity`, or a sell that passed the shares check and
credited `price × quantity`. -/
theorem trade_ok_elim {s : TradeState} {sym : String} {q : ℚ} {t : String} {p : ℚ}
    {s2 : TradeState} (h : trade s sym q t p = .ok s2) :
    sym ≠ "" ∧ q ≠ 0 ∧
    ((t = "buy" ∧ ∃ b, s.balance = some b ∧ p * q ≤ b ∧
        s2 = updatePortfolio { s with balance := some (b - p * q) } sym q p "buy")
    ∨ (t = "sell" ∧ ∃ row, findPos s.positions sym = some row ∧ q ≤ row.quantity ∧
        s2 = updatePortfolio { s with balance := s.balance.map (fun b => b + p * q) }
              sym (-q) p "sell")) := by
  unfold trade at h
  split at h
  · exact absurd h (by simp)
  · next hval =>
    push_neg at hval
    obtain ⟨hsym, hq, hbs⟩ := hval
    refine ⟨hsym, hq, ?_⟩
    split at h
    · next hbuy =>
      left
      refine ⟨hbuy, ?_⟩
      split at h
      · exact absurd h (by simp)
      · next b hbal =>
        split at h
        · exact absurd h (by simp)
        · next hge =>
          exact ⟨b, hbal, le_of_not_lt hge, ((Except.ok.injEq _ _).mp h).symm⟩
    · next hnbuy =>
      right
      have hsell : t = "sell" := hbs.resolve_left hnbuy
      refine ⟨hsell, ?_⟩
      split at h
      · exact absurd h (by simp)
      · next row hrow =>
        split at h
        · exact absurd h (by simp)
        · next hge =>
          exact ⟨row, hrow, le_of_not_lt hge, ((Except.ok.injEq _ _).mp h).symm⟩

theorem buyTotal_cons (r : TradeReq) (rs : List TradeReq) :
    buyTotal (r :: rs) =
      (if r.ttype = "buy" then r.price * r.quantity else 0) + buyTotal rs := by
  unfold buyTotal
  rw [List.filter_cons]
  split_ifs with h <;> simp_all

theorem sellTotal_cons (r : TradeReq) (rs : List TradeReq) :
    sellTotal (r :: rs) =
      (if r.ttype = "sell" then r.price * r.quantity else 0) + sellTotal rs := by
  unfold sellTotal
  rw [List.filter_cons]
  split_ifs with h <;> simp_all

/-! ## Claim theorems -/

/-- C1: for every sequence of buy and sell trades on one account that all
satisfy the funds/shares preconditions (i.e. that all commit), the final
cash balance equals the initial balance minus `Σ price×quantity` over the
buys plus `Σ price×quantity` over the sells, exactly. -/
theorem trade_sequence_cash (reqs : List TradeReq) :
    ∀ (s s2 : TradeState) (b0 : ℚ), s.balance = some b0 →
      applyTrades s reqs = .ok s2 →
      s2.balance = some (b0 - buyTotal reqs + sellTotal reqs) := by
  induction reqs with
  | nil =>
    intro s s2 b0 hb h
    have hs : s2 = s := by
      simpa [applyTrades] using h.symm
    subst hs
    simp [buyTotal, sellTotal, hb]
  | cons r rs ih =>
    intro s s2 b0 hb h
    unfold applyTrades at h
    split at h
    · exact absurd h (by simp)
    · next s1 h1 =>
      obtain ⟨-, -, hcase⟩ := trade_ok_elim h1
      rcases hcase with ⟨hbuy, b, hbal, -, hs1⟩ | ⟨hsell, row, -, -, hs1⟩
      · have hb1 : s1.balance = some (b0 - r.price * r.quantity) := by
          rw [hs1, updatePortfolio_balance]
          simp only []
          rw [hbal] at hb
          simp at hb
          rw [hb]
        have := ih s1 s2 (b0 - r.price * r.quantity) hb1 h
        rw [this, buyTotal_cons, sellTotal_cons, hbuy]
        rw [if_pos rfl, if_neg (by decide : ¬ ("buy" : String) = "sell")]
        congr 1
        ring
      · have hb1 : s1.balance = some (b0 + r.price * r.quantity) := by
          rw [hs1, updatePortfolio_balance]
          simp only []
          rw [hb]
          rfl
        have := ih s1 s2 (b0 + r.price * r.quantity) hb1 h
        rw [this, buyTotal_cons, sellTotal_cons, hsell]
        rw [if_pos rfl, if_neg (by decide : ¬ ("sell" : String) = "buy")]
        congr 1
        ring

/-- C1 witness: from a balance of `10000`, buying 2 shares at price 5 and
selling 1 share at price 7 commits and leaves
`10000 − 5×2 + 7×1 = 9997` in cash. -/
theorem trade_sequence_cash_witness :
    ({ balance := some 10000, positions := [], transactions := [] } : TradeState).balance
        = some 10000 ∧
    applyTrades { balance := some 10000, positions := [], transactions := [] }
        [⟨"A", 2, "buy", 5⟩, ⟨"A", 1, "sell", 7⟩] =
      .ok { balance := some 9997,
            positions := [("A", { quantity := 1, average_cost := 5 })],
            transactions := [{ symbol := "A", quantity := 2, price := 5, ttype := "buy" },
                             { symbol := "A", quantity := 1, price := 7, ttype := "sell" }] } ∧
    ({ balance := some 9997,
       positions := [("A", { quantity := 1, average_cost := 5 })],
       transactions := [{ symbol := "A", quantity := 2, price := 5, ttype := "buy" },
                        { symbol := "A", quantity := 1, price := 7, ttype := "sell" }] }
        : TradeState).balance =
      some (10000 - buyTotal [⟨"A", 2, "buy", 5⟩, ⟨"A", 1, "sell", 7⟩]
              + sellTotal [⟨"A", 2, "buy", 5⟩, ⟨"A", 1, "sell", 7⟩]) := by
  have happ : applyTrades { balance := some 10000, positions := [], transactions := [] }
        [⟨"A", 2, "buy", 5⟩, ⟨"A", 1, "sell", 7⟩] =
      .ok { balance := some 9997,
            positions := [("A", { quantity := 1, average_cost := 5 })],
            transactions := [{ symbol := "A", quantity := 2, price := 5, ttype := "buy" },
                             { symbol := "A", quantity := 1, price := 7, ttype := "sell" }] } := by
    simp only [applyTrades, trade, updatePortfolio, upsertPos, updateRow, findPos,
      String.reduceEq, reduceIte]
    norm_num [findPos, upsertPos, updateRow, String.reduceEq]
  exact ⟨rfl, happ,
    trade_sequence_cash [⟨"A", 2, "buy", 5⟩, ⟨"A", 1, "sell", 7⟩] _ _ 10000 rfl happ⟩

/-- C3: a buy request (well-formed symbol and quantity) whose cost
`price × quantity` exceeds the account's cash balance is rejected with the
insufficient-funds error, and the rolled-back database — cash, positions
and transaction log — is exactly the prior state. -/
theorem buy_insufficient_funds_rejected (s : TradeState) (sym : String) (q p b : ℚ)
    (hsym : sym ≠ "") (hq : q ≠ 0) (hb : s.balance = some b) (hlt : b < p * q) :
    trade s sym q "buy" p = .error .insufficientFunds ∧
    tradeRun s sym q "buy" p = s := by
  have hcond : ¬ (sym = "" ∨ q = 0 ∨ ¬ (("buy" : String) = "buy" ∨ ("buy" : String) = "sell")) := by
    push_neg
    exact ⟨hsym, hq, Or.inl rfl⟩
  have ht : trade s sym q "buy" p = .error .insufficientFunds := by
    unfold trade
    rw [if_neg hcond, if_pos rfl, hb]
    simp only [hlt, if_true]
  refine ⟨ht, ?_⟩
  unfold tradeRun
  rw [ht]

/-- C3 witness: buying 3 shares at price 50 with only 100 in cash is
rejected with the insufficient-funds error and changes nothing. -/
theorem buy_insufficient_funds_witness :
    ("AAPL" : String) ≠ "" ∧ (3 : ℚ) ≠ 0 ∧
    ({ balance := some 100, positions := [], transactions := [] } : TradeState).balance
        = some 100 ∧
    (100 : ℚ) < 50 * 3 ∧
    trade { balance := some 100, positions := [], transactions := [] } "AAPL" 3 "buy" 50 =
      .error .insufficientFunds ∧
    tradeRun { balance := some 100, positions := [], transactions := [] } "AAPL" 3 "buy" 50 =
      { balance := some 100, positions := [], transactions := [] } := by
  refine ⟨by decide, by norm_num, rfl, by norm_num, ?_, ?_⟩
  · exact (buy_insufficient_funds_rejected _ "AAPL" 3 50 100 (by decide) (by norm_num) rfl
      (by norm_num)).1
  · exact (buy_insufficient_funds_rejected _ "AAPL" 3 50 100 (by decide) (by norm_num) rfl
      (by norm_num)).2

/-- C4: a sell request (well-formed symbol and quantity) for more shares
than the account holds in the symbol — including when no position row
exists at all — is rejected with the insufficient-shares error, and the
rolled-back database is exactly the prior state. -/
theorem sell_insufficient_shares_rejected (s : TradeState) (sym : String) (q p : ℚ)
    (hsym : sym ≠ "") (hq : q ≠ 0)
    (hrow : ∀ row ∈ findPos s.positions sym, row.quantity < q) :
    trade s sym q "sell" p = .error .insufficientShares ∧
    tradeRun s sym q "sell" p = s := by
  have hcond : ¬ (sym = "" ∨ q = 0 ∨ ¬ (("sell" : String) = "buy" ∨ ("sell" : String) = "sell")) := by
    push_neg
    exact ⟨hsym, hq, Or.inr rfl⟩
  have hnb : ¬ (("sell" : String) = "buy") := by decide
  have ht : trade s sym q "sell" p = .error .insufficientShares := by
    unfold trade
    rw [if_neg hcond, if_neg hnb]
    cases hr : findPos s.positions sym with
    | none => rfl
    | some row =>
      have := hrow row (by rw [hr]; rfl)
      simp only [this, if_true]
  refine ⟨ht, ?_⟩
  unfold tradeRun
  rw [ht]

/-- C4 witness: selling 3 shares while holding 2 is rejected with the
insufficient-shares error and changes nothing. -/
theorem sell_insufficient_shares_witness :
    ("AAPL" : String) ≠ "" ∧ (3 : ℚ) ≠ 0 ∧
    (∀ row ∈ findPos [("AAPL", ({ quantity := 2, average_cost := 5 } : Position))] "AAPL",
        row.quantity < 3) ∧
    trade { balance := some 100,
            positions := [("AAPL", { quantity := 2, average_cost := 5 })],
            transactions := [] } "AAPL" 3 "sell" 50 =
      .error .insufficientShares ∧
    tradeRun { balance := some 100,
               positions := [("AAPL", { quantity := 2, average_cost := 5 })],
               transactions := [] } "AAPL" 3 "sell" 50 =
      { balance := some 100,
        positions := [("AAPL", { quantity := 2, average_cost := 5 })],
        transactions := [] } := by
  have hrow : ∀ row ∈ findPos [("AAPL", ({ quantity := 2, average_cost := 5 } : Position))] "AAPL",
      row.quantity < 3 := by
    intro row hr
    simp only [findPos, String.reduceEq, reduceIte, Option.mem_def, Option.some.injEq] at hr
    rw [← hr]
    norm_num
  refine ⟨by decide, by norm_num, hrow, ?_, ?_⟩
  · exact (sell_insufficient_shares_rejected _ "AAPL" 3 50 (by decide) (by norm_num) hrow).1
  · exact (sell_insufficient_shares_rejected _ "AAPL" 3 50 (by decide) (by norm_num) hrow).2

/-- C5: the claim says a trade request with negative quantity is rejected
with the invalid-input error before any state is touched; the code's
guard `!quantity` only catches quantity `0`, so a buy of quantity `−5` at
price `10` passes validation, passes the funds check
(`100 < 10 × (−5)` is false), commits, and *increases* the cash balance
from `10000` to `10050` while inserting a negative position row. -/
theorem negative_quantity_buy_executes :
    trade { balance := some 10000, positions := [], transactions := [] } "AAPL" (-5) "buy" 10 =
      .ok { balance := some 10050,
            positions := [("AAPL", { quantity := -5, average_cost := 10 })],
            transactions := [{ symbol := "AAPL", quantity := 5, price := 10, ttype := "buy" }] } := by
  simp only [trade, updatePortfolio, upsertPos, updateRow, String.reduceEq, reduceIte]
  norm_num

/-- Looking up the upserted symbol after `updatePortfolio`: a fresh row
`(q, price)` when none existed, the `DO UPDATE` row otherwise. -/
theorem findPos_upsert_same (ps : List (String × Position)) (sym : String) (q p : ℚ) :
    findPos (upsertPos ps sym q p) sym =
      some (match findPos ps sym with
            | none => { quantity := q, average_cost := p }
            | some pos => updateRow pos q p) := by
  induction ps with
  | nil => simp [upsertPos, findPos]
  | cons hd tl ih =>
    by_cases h : hd.1 = sym
    · simp [upsertPos, findPos, h]
    · simp [upsertPos, findPos, h, ih]

/-- A buy's `DO UPDATE` adds the bought quantity and adds
`quantity × price` to the position's cost mass `quantity × average_cost`
(the denominator `oldQty + q` is nonzero when `oldQty ≥ 0 < q`). -/
theorem updateRow_buy_mass (pos : Position) (q p : ℚ) (hq : 0 < q)
    (hQ : 0 ≤ pos.quantity) :
    (updateRow pos q p).quantity = pos.quantity + q ∧
    (updateRow pos q p).quantity * (updateRow pos q p).average_cost =
      pos.quantity * pos.average_cost + q * p := by
  have habs : |q| = q := abs_of_pos hq
  have hne : pos.quantity + q ≠ 0 := by positivity
  constructor
  · rfl
  · unfold updateRow
    simp only [if_pos hq, habs]
    field_simp

/-- Invariant of a run of committed buys on one symbol: the position's
quantity grows by the sum of the bought quantities and its cost mass by
the sum of `price × quantity` of the fills. -/
theorem buy_run_invariant (reqs : List TradeReq) :
    ∀ (s s2 : TradeState) (sym : String) (pos : Position),
      (∀ r ∈ reqs, r.ttype = "buy" ∧ r.symbol = sym ∧ 0 < r.quantity) →
      findPos s.positions sym = some pos → 0 ≤ pos.quantity →
      applyTrades s reqs = .ok s2 →
      ∃ pos2, findPos s2.positions sym = some pos2 ∧
        pos2.quantity = pos.quantity + (reqs.map (fun r => r.quantity)).sum ∧
        pos2.quantity * pos2.average_cost =
          pos.quantity * pos.average_cost +
            (reqs.map (fun r => r.price * r.quantity)).sum := by
  induction reqs with
  | nil =>
    intro s s2 sym pos hall hfind hQ h
    have hs : s2 = s := by simpa [applyTrades] using h.symm
    subst hs
    exact ⟨pos, hfind, by simp, by simp⟩
  | cons r rs ih =>
    intro s s2 sym pos hall hfind hQ h
    obtain ⟨hbuy, hsym, hqpos⟩ := hall r (List.mem_cons_self r rs)
    unfold applyTrades at h
    split at h
    · exact absurd h (by simp)
    · next s1 h1 =>
      obtain ⟨-, -, hcase⟩ := trade_ok_elim h1
      rcases hcase with ⟨-, b, -, -, hs1⟩ | ⟨hsell, -⟩
      · have hpos1 : findPos s1.positions sym = some (updateRow pos r.quantity r.price) := by
          rw [hs1]
          unfold updatePortfolio
          simp only []
          rw [hsym, findPos_upsert_same, hfind]
        obtain ⟨hq1, hm1⟩ := updateRow_buy_mass pos r.quantity r.price hqpos hQ
        have hQ1 : 0 ≤ (updateRow pos r.quantity r.price).quantity := by
          rw [hq1]; positivity
        obtain ⟨pos2, hfind2, hqty2, hmass2⟩ :=
          ih s1 s2 sym (updateRow pos r.quantity r.price)
            (fun x hx => hall x (List.mem_cons_of_mem r hx)) hpos1 hQ1 h
        refine ⟨pos2, hfind2, ?_, ?_⟩
        · rw [hqty2, hq1]
          simp only [List.map_cons, List.sum_cons]
          ring
        · rw [hmass2, hm1]
          simp only [List.map_cons, List.sum_cons]
          ring
      · rw [hbuy] at hsell
        exact absurd hsell (by decide)

/-- C2 counterexample: on the committed sequence buy 10 at 10, sell 5 at
10, buy 10 at 20, the stored average cost is `50/3 ≈ 16.67`, while the
quantity-weighted mean of all buy fills is `(10×10 + 10×20)/20 = 15` —
after a sell has intervened, the stored average cost is *not* the
weighted mean of all buy fills, because the sell removed quantity but the
next buy reweights against the reduced quantity. -/
theorem avg_cost_not_buy_fills_mean :
    applyTrades { balance := some 10000, positions := [], transactions := [] }
        [⟨"A", 10, "buy", 10⟩, ⟨"A", 5, "sell", 10⟩, ⟨"A", 10, "buy", 20⟩] =
      .ok { balance := some 9750,
            positions := [("A", { quantity := 15, average_cost := 50 / 3 })],
            transactions := [{ symbol := "A", quantity := 10, price := 10, ttype := "buy" },
                             { symbol := "A", quantity := 5, price := 10, ttype := "sell" },
                             { symbol := "A", quantity := 10, price := 20, ttype := "buy" }] } ∧
    buyFillsMean [⟨"A", 10, "buy", 10⟩, ⟨"A", 5, "sell", 10⟩, ⟨"A", 10, "buy", 20⟩] "A" = 15 ∧
    (50 / 3 : ℚ) ≠ 15 := by
  refine ⟨?_, ?_, by norm_num⟩
  · simp only [applyTrades, trade, updatePortfolio, upsertPos, updateRow, findPos,
      String.reduceEq, reduceIte]
    norm_num [findPos, upsertPos, updateRow, String.reduceEq]
  · unfold buyFillsMean
    simp only [List.filter_cons, List.filter_nil, String.reduceEq, Bool.decide_and,
      decide_eq_true_eq, Bool.false_and, Bool.true_and, if_false, if_true]
    norm_num

/-- C2 amended: (1) a committed sell of positive quantity never changes
the stored average cost of the traded symbol; (2) after a nonempty
committed sequence of buys of positive quantities on one symbol starting
from no position, the stored quantity is the sum of the bought quantities
and the stored average cost equals the quantity-weighted mean of those
buy fills — the first buy sets it to its price and each subsequent buy of
quantity `q` at price `p` updates it to
`(oldQty×oldAvgCost + q×p)/(oldQty + q)`. -/
theorem avg_cost_weighted_mean_of_buys :
    (∀ (s s2 : TradeState) (sym : String) (q p : ℚ),
      0 < q → trade s sym q "sell" p = .ok s2 →
      (findPos s2.positions sym).map Position.average_cost =
        (findPos s.positions sym).map Position.average_cost) ∧
    (∀ (reqs : List TradeReq) (s s2 : TradeState) (sym : String),
      reqs ≠ [] →
      (∀ r ∈ reqs, r.ttype = "buy" ∧ r.symbol = sym ∧ 0 < r.quantity) →
      findPos s.positions sym = none →
      applyTrades s reqs = .ok s2 →
      ∃ pos2, findPos s2.positions sym = some pos2 ∧
        pos2.quantity = (reqs.map (fun r => r.quantity)).sum ∧
        pos2.average_cost = buyFillsMean reqs sym) := by
  constructor
  · intro s s2 sym q p hq h
    obtain ⟨-, -, hcase⟩ := trade_ok_elim h
    rcases hcase with ⟨hbuy, -⟩ | ⟨-, row, hrow, -, hs2⟩
    · exact absurd hbuy (by decide)
    · rw [hs2]
      unfold updatePortfolio
      simp only []
      rw [findPos_upsert_same, hrow]
      have hnq : ¬ (0 < -q) := by linarith
      simp [updateRow, hnq]
  · intro reqs s s2 sym hne hall hnone h
    cases reqs with
    | nil => exact absurd rfl hne
    | cons r rs =>
      obtain ⟨hbuy, hsym, hqpos⟩ := hall r (List.mem_cons_self r rs)
      unfold applyTrades at h
      split at h
      · exact absurd h (by simp)
      · next s1 h1 =>
        obtain ⟨-, -, hcase⟩ := trade_ok_elim h1
        rcases hcase with ⟨-, b, -, -, hs1⟩ | ⟨hsell, -⟩
        · have hpos1 : findPos s1.positions sym =
              some { quantity := r.quantity, average_cost := r.price } := by
            rw [hs1]
            unfold updatePortfolio
            simp only []
            rw [hsym, findPos_upsert_same, hnone]
          obtain ⟨pos2, hfind2, hqty2, hmass2⟩ :=
            buy_run_invariant rs s1 s2 sym { quantity := r.quantity, average_cost := r.price }
              (fun x hx => hall x (List.mem_cons_of_mem r hx)) hpos1 (le_of_lt hqpos) h
          have hsum_nonneg : 0 ≤ (rs.map (fun x => x.quantity)).sum := by
            apply List.sum_nonneg
            intro a ha
            obtain ⟨x, hx, rfl⟩ := List.mem_map.mp ha
            exact le_of_lt (hall x (List.mem_cons_of_mem r hx)).2.2
          have hq : pos2.quantity = ((r :: rs).map (fun x => x.quantity)).sum := by
            rw [hqty2]
            simp only [List.map_cons, List.sum_cons]
          have hmass : pos2.quantity * pos2.average_cost =
              ((r :: rs).map (fun x => x.price * x.quantity)).sum := by
            rw [hmass2]
            simp only [List.map_cons, List.sum_cons]
            ring
          have hqty_pos : 0 < pos2.quantity := by
            rw [hq]
            simp only [List.map_cons, List.sum_cons]
            linarith
          have hT : ((r :: rs).map (fun x => x.quantity)).sum ≠ 0 := by
            rw [← hq]
            exact ne_of_gt hqty_pos
          have hfilter : (r :: rs).filter (fun x => x.ttype = "buy" ∧ x.symbol = sym)
              = r :: rs := by
            apply List.filter_eq_self.mpr
            intro a ha
            have := hall a ha
            simp [this.1, this.2.1]
          refine ⟨pos2, hfind2, hq, ?_⟩
          unfold buyFillsMean
          simp only [hfilter]
          rw [eq_div_iff hT, ← hq, mul_comm]
          exact hmass
        · rw [hbuy] at hsell
          exact absurd hsell (by decide)
/-- C2 amended witness: two buys (2 at 10, then 3 at 20) from no position
give quantity 5 and average cost 16 = (2×10 + 3×20)/5, the weighted mean
of the buy fills. -/
theorem avg_cost_weighted_mean_of_buys_witness :
    (([⟨"A", 2, "buy", 10⟩, ⟨"A", 3, "buy", 20⟩] : List TradeReq) ≠ []) ∧
    (∀ r ∈ ([⟨"A", 2, "buy", 10⟩, ⟨"A", 3, "buy", 20⟩] : List TradeReq),
        r.ttype = "buy" ∧ r.symbol = "A" ∧ 0 < r.quantity) ∧
    findPos ({ balance := some 10000, positions := [],
               transactions := [] } : TradeState).positions "A" = none ∧
    applyTrades { balance := some 10000, positions := [], transactions := [] }
        [⟨"A", 2, "buy", 10⟩, ⟨"A", 3, "buy", 20⟩] =
      .ok { balance := some 9920,
            positions := [("A", { quantity := 5, average_cost := 16 })],
            transactions := [{ symbol := "A", quantity := 2, price := 10, ttype := "buy" },
                             { symbol := "A", quantity := 3, price := 20, ttype := "buy" }] } ∧
    (∃ pos2,
      findPos ({ balance := some 9920,
                 positions := [("A", { quantity := 5, average_cost := 16 })],
                 transactions := [{ symbol := "A", quantity := 2, price := 10, ttype := "buy" },
                                  { symbol := "A", quantity := 3, price := 20, ttype := "buy" }] }
          : TradeState).positions "A" = some pos2 ∧
      pos2.quantity =
        (([⟨"A", 2, "buy", 10⟩, ⟨"A", 3, "buy", 20⟩] : List TradeReq).map
          (fun r => r.quantity)).sum ∧
      pos2.average_cost = buyFillsMean [⟨"A", 2, "buy", 10⟩, ⟨"A", 3, "buy", 20⟩] "A") := by
  have hall : ∀ r ∈ ([⟨"A", 2, "buy", 10⟩, ⟨"A", 3, "buy", 20⟩] : List TradeReq),
      r.ttype = "buy" ∧ r.symbol = "A" ∧ 0 < r.quantity := by
    intro r hr
    simp only [List.mem_cons, List.not_mem_nil, or_false] at hr
    rcases hr with rfl | rfl <;> exact ⟨rfl, rfl, by decide⟩
  have happ : applyTrades { balance := some 10000, positions := [], transactions := [] }
        [⟨"A", 2, "buy", 10⟩, ⟨"A", 3, "buy", 20⟩] =
      .ok { balance := some 9920,
            positions := [("A", { quantity := 5, average_cost := 16 })],
            transactions := [{ symbol := "A", quantity := 2, price := 10, ttype := "buy" },
                             { symbol := "A", quantity := 3, price := 20, ttype := "buy" }] } := by
    simp only [applyTrades, trade, updatePortfolio, upsertPos, updateRow, findPos,
      String.reduceEq, reduceIte]
    norm_num [findPos, upsertPos, updateRow, String.reduceEq]
  exact ⟨by simp, hall, rfl, happ,
    avg_cost_weighted_mean_of_buys.2 _
      { balance := some 10000, positions := [], transactions := [] } _ "A"
      (by simp) hall rfl happ⟩
/-- C9: every holding returned by the portfolio summary has strictly
positive quantity: the summary's portfolio query filters
`quantity > 0`, so a zero-quantity row retained after a full sell is
never returned as a holding. -/
theorem summary_holdings_positive (s : TradeState) (priceOf : String → ℚ)
    (h : Holding) (hmem : h ∈ (getSummary s priceOf).1.holdings) :
    0 < h.quantity := by
  unfold getSummary at hmem
  simp only [List.mem_map, List.mem_filter] at hmem
  obtain ⟨p, ⟨-, hpos⟩, rfl⟩ := hmem
  simpa using of_decide_eq_true hpos

/-- C9 witness: with a retained zero-quantity row for "A" and a live
3-share row for "B", the summary returns exactly the "B" holding, whose
quantity is positive. -/
theorem summary_holdings_positive_witness :
    ({ symbol := "B", quantity := 3, averageCost := 2, currentPrice := 10,
       totalValue := 30, profit := 24 } : Holding) ∈
      (getSummary { balance := some 1000,
                    positions := [("A", { quantity := 0, average_cost := 5 }),
                                  ("B", { quantity := 3, average_cost := 2 })],
                    transactions := [] } (fun _ => 10)).1.holdings ∧
    (0 : ℚ) <
      ({ symbol := "B", quantity := 3, averageCost := 2, currentPrice := 10,
         totalValue := 30, profit := 24 } : Holding).quantity := by
  have hmem : ({ symbol := "B", quantity := 3, averageCost := 2, currentPrice := 10,
                 totalValue := 30, profit := 24 } : Holding) ∈
      (getSummary { balance := some 1000,
                    positions := [("A", { quantity := 0, average_cost := 5 }),
                                  ("B", { quantity := 3, average_cost := 2 })],
                    transactions := [] } (fun _ => 10)).1.holdings := by
    norm_num [getSummary, List.filter]
  exact ⟨hmem, summary_holdings_positive _ _ _ hmem⟩

/-- C10: invoking the portfolio summary for a user with no balance row
does not fail: the route inserts a balance row holding the initial
balance constant `10000` and reports that amount as the user's cash. -/
theorem summary_creates_initial_balance (s : TradeState) (priceOf : String → ℚ)
    (h : s.balance = none) :
    (getSummary s priceOf).1.cash = initialBalance ∧
    (getSummary s priceOf).2.balance = some initialBalance ∧
    initialBalance = 10000 := by
  unfold getSummary
  rw [h]
  exact ⟨rfl, rfl, rfl⟩

/-- C10 witness: a state with no balance row and an empty portfolio gets
cash `10000` and a created balance row of `10000`. -/
theorem summary_creates_initial_balance_witness :
    ({ balance := none, positions := [], transactions := [] } : TradeState).balance = none ∧
    (getSummary { balance := none, positions := [], transactions := [] }
        (fun _ => 10)).1.cash = initialBalance ∧
    (getSummary { balance := none, positions := [], transactions := [] }
        (fun _ => 10)).2.balance = some initialBalance ∧
    initialBalance = 10000 :=
  ⟨rfl, summary_creates_initial_balance _ (fun _ => 10) rfl⟩
/-- C6: `calculateSMA` on the 5-close example with period 3 gives the
spec's expected series, but on an input shorter than `period − 1` closes
the constant `period − 1` null padding makes the output longer than the
input: on the empty input with period 3 the output is `[null, null]` of
length 2, contradicting the claimed output-length equality (and the
code's own comment "to match data length"). -/
theorem sma_pads_beyond_short_input :
    calculateSMA [10, 20, 30, 40, 50] 3 = [none, none, some 20, some 30, some 40] ∧
    calculateSMA ([] : List ℚ) 3 = [none, none] ∧
    (calculateSMA ([] : List ℚ) 3).length ≠ ([] : List ℚ).length := by
  refine ⟨?_, by rfl, by simp [calculateSMA]⟩
  simp only [calculateSMA]
  norm_num [List.range_succ, List.replicate]

/-- The `changes` array has one entry fewer than the closes array. -/
theorem rsiChanges_length (data : List ℚ) :
    (rsiChanges data).length = data.length - 1 := by
  induction data with
  | nil => rfl
  | cons a tl ih =>
    cases tl with
    | nil => rfl
    | cons b rest =>
      simp only [rsiChanges, List.length_cons] at ih ⊢
      omega

/-- The `i`-th change is `closes[i+1] − closes[i]`. -/
theorem rsiChanges_get? (data : List ℚ) :
    ∀ i, i + 1 < data.length → (rsiChanges data).get? i = some (nthChange data i) := by
  induction data with
  | nil =>
    intro i h
    simp only [List.length_nil] at h
    omega
  | cons a tl ih =>
    intro i h
    cases tl with
    | nil =>
      simp only [List.length_cons, List.length_nil] at h
      omega
    | cons b rest =>
      cases i with
      | zero => rfl
      | succ i =>
        simp only [rsiChanges, List.get?_cons_succ]
        rw [ih i (by simpa using h)]
        simp [nthChange, List.getD]

/-- Indexing into a replicated list below its length. -/
theorem get?_replicate_of_lt {α : Type} (a : α) (n i : ℕ) (h : i < n) :
    (List.replicate n a).get? i = some a := by
  induction n generalizing i with
  | zero => omega
  | succ n ih =>
    cases i with
    | zero => rfl
    | succ i =>
      simp only [List.replicate, List.get?_cons_succ]
      exact ih i (by omega)

/-- Indexing the RSI main loop started at change index `period + k` with
the averages attached to close index `period + k`: entry `j` is the RSI
value of the averages attached to close index `period + k + j + 1`. -/
theorem rsiLoop_drop_get (data : List ℚ) (period : ℕ) :
    ∀ j k, period + k + j + 1 < data.length →
      (rsiLoop period (rsiAvgs data period k) ((rsiChanges data).drop (period + k))).get? j =
        some (rsiOf (rsiAvgs data period (k + j + 1))) := by
  intro j
  induction j with
  | zero =>
    intro k hk
    have hlt : period + k < (rsiChanges data).length := by
      rw [rsiChanges_length]; omega
    rw [List.drop_eq_get_cons hlt]
    have hget : (rsiChanges data).get ⟨period + k, hlt⟩ = nthChange data (period + k) := by
      have := rsiChanges_get? data (period + k) (by omega)
      rw [List.get?_eq_get hlt] at this
      exact Option.some.inj this
    simp only [rsiLoop, hget, List.get?_cons_zero]
    rfl
  | succ j ih =>
    intro k hk
    have hlt : period + k < (rsiChanges data).length := by
      rw [rsiChanges_length]; omega
    rw [List.drop_eq_get_cons hlt]
    have hget : (rsiChanges data).get ⟨period + k, hlt⟩ = nthChange data (period + k) := by
      have := rsiChanges_get? data (period + k) (by omega)
      rw [List.get?_eq_get hlt] at this
      exact Option.some.inj this
    simp only [rsiLoop, hget, List.get?_cons_succ]
    have hstep : wilderStep period (rsiAvgs data period k) (nthChange data (period + k)) =
        rsiAvgs data period (k + 1) := rfl
    rw [hstep]
    have harg : period + k + 1 = period + (k + 1) := by omega
    rw [harg]
    have hrec := ih (k + 1) (by omega)
    have hidx : k + 1 + j + 1 = k + (j + 1) + 1 := by omega
    rw [hidx] at hrec
    exact hrec
/-- The RSI main loop yields one value per remaining change. -/
theorem rsiLoop_length (period : ℕ) :
    ∀ (avg : ℚ × ℚ) (cs : List ℚ), (rsiLoop period avg cs).length = cs.length := by
  intro avg cs
  induction cs generalizing avg with
  | nil => rfl
  | cons c cs ih => simp [rsiLoop, ih]

/-- Specialization of `rsiLoop_drop_get` to the seeded start of the
loop. -/
theorem rsiLoop_get_from_seed (data : List ℚ) (period j : ℕ)
    (h : period + j + 1 < data.length) :
    (rsiLoop period (rsiSeed data period) ((rsiChanges data).drop period)).get? j =
      some (rsiOf (rsiAvgs data period (j + 1))) := by
  have hrec := rsiLoop_drop_get data period j 0 (by omega)
  have h1 : period + 0 = period := by omega
  have h2 : (0 : ℕ) + j + 1 = j + 1 := by omega
  have h0 : rsiAvgs data period 0 = rsiSeed data period := rfl
  rw [h1, h2, h0] at hrec
  exact hrec

/-- C7 counterexample: on the one-close input `[1]`, `calculateRSI`
returns `[100]` — a defined value at index `0`, even though the claim
requires every index before the first defined value (at index
`period = 14`) to be null; the seed value is pushed unconditionally even
when fewer than `period` differences exist.  On the empty input the
null-padding count `data.length − rsi.length` is `−1` and the JavaScript
`Array` constructor throws (embedded `none`) instead of returning a
sequence of the input's length. -/
theorem rsi_defined_before_period_on_short_input :
    calculateRSI [(1 : ℚ)] 14 = some [some 100] ∧
    calculateRSI ([] : List ℚ) 14 = none := by
  constructor
  · norm_num [calculateRSI, rsiSeed, rsiChanges, rsiLoop, rsiOf, List.replicate]
  · norm_num [calculateRSI, rsiSeed, rsiChanges, rsiLoop, rsiOf]

/-- C7 amended: for every closes sequence of length ≥ 15 (`period + 1`
with the default `period = 14`), `calculateRSI` returns a sequence of the
same length, null exactly at indices below 14, and the value at index
`14 + j` equal to `rsiOf (rsiAvgs j)`: the seed at index 14 (mean of the
positive and of the absolute negative differences among the first 14
differences, each over 14) and one Wilder smoothing step
`avgGain = (avgGain×13 + gain)/14` (likewise for the loss) per later
index, the value being `100` when the average loss is zero and
`100 − 100/(1 + avgGain/avgLoss)` otherwise. -/
theorem rsi_structure_long_input (data : List ℚ) (h : 15 ≤ data.length) :
    ∃ out, calculateRSI data 14 = some out ∧
      out.length = data.length ∧
      (∀ i, i < 14 → out.get? i = some none) ∧
      (∀ j, 14 + j < data.length →
        out.get? (14 + j) = some (some (rsiOf (rsiAvgs data 14 j)))) := by
  have hch := rsiChanges_length data
  have hloop : (rsiLoop 14 (rsiSeed data 14) ((rsiChanges data).drop 14)).length
      = data.length - 15 := by
    rw [rsiLoop_length, List.length_drop, hch]
    omega
  have hlen : (rsiOf (rsiSeed data 14) ::
      rsiLoop 14 (rsiSeed data 14) ((rsiChanges data).drop 14)).length = data.length - 14 := by
    simp only [List.length_cons, hloop]
    omega
  have hle : (rsiOf (rsiSeed data 14) ::
      rsiLoop 14 (rsiSeed data 14) ((rsiChanges data).drop 14)).length ≤ data.length := by
    rw [hlen]; omega
  have hcalc : calculateRSI data 14 =
      some (List.replicate 14 (none : Option ℚ) ++
        ((rsiOf (rsiSeed data 14) ::
          rsiLoop 14 (rsiSeed data 14) ((rsiChanges data).drop 14)).map some)) := by
    simp only [calculateRSI]
    rw [if_pos hle, hlen]
    have h14 : data.length - (data.length - 14) = 14 := by omega
    rw [h14]
  refine ⟨_, hcalc, ?_, ?_, ?_⟩
  · simp only [List.length_append, List.length_replicate, List.length_map, hlen]
    omega
  · intro i hi
    rw [List.get?_append (by simpa using hi)]
    exact get?_replicate_of_lt _ _ _ hi
  · intro j hj
    rw [List.get?_append_right (by rw [List.length_replicate]; omega)]
    simp only [List.length_replicate]
    have hidx : 14 + j - 14 = j := by omega
    rw [hidx, List.get?_map]
    cases j with
    | zero => rfl
    | succ j2 =>
      simp only [List.get?_cons_succ]
      rw [rsiLoop_get_from_seed data 14 j2 (by omega)]
      rfl

/-- C7 amended witness: the 15-close input `[1, …, 15]` instantiates the
structure theorem. -/
theorem rsi_structure_long_input_witness :
    15 ≤ ([1, 2, 3, 4, 5, 6, 7, 8, 9, 10, 11, 12, 13, 14, 15] : List ℚ).length ∧
    (∃ out, calculateRSI [1, 2, 3, 4, 5, 6, 7, 8, 9, 10, 11, 12, 13, 14, 15] 14 = some out ∧
      out.length = ([1, 2, 3, 4, 5, 6, 7, 8, 9, 10, 11, 12, 13, 14, 15] : List ℚ).length ∧
      (∀ i, i < 14 → out.get? i = some none) ∧
      (∀ j, 14 + j < ([1, 2, 3, 4, 5, 6, 7, 8, 9, 10, 11, 12, 13, 14, 15] : List ℚ).length →
        out.get? (14 + j) =
          some (some (rsiOf (rsiAvgs [1, 2, 3, 4, 5, 6, 7, 8, 9, 10, 11, 12, 13, 14, 15] 14 j))))) :=
  ⟨by simp, rsi_structure_long_input [1, 2, 3, 4, 5, 6, 7, 8, 9, 10, 11, 12, 13, 14, 15] (by simp)⟩

end StockSim
